import Mathlib

/-!
Verification of the kalshi-dashboard daily-volume pipeline
(src/kalshi_to_supabase.py) against its specification.

The Python source is shallowly embedded below: pure functions become Lean
functions, the stateful aggregation loop in main() becomes explicit folds
over association lists (Python dicts preserving insertion order), machine
arithmetic becomes Nat/Int/Rat, and fallible code returns Option.
-/

set_option maxRecDepth 4000

namespace KalshiPipeline

/-! ## String utilities

Case-insensitive substring search, embedding the behavior of
re.search with re.IGNORECASE on alternations of plain literals
(all regex patterns in the source are alternations of literal words). -/

/-- listStarts hay needle: needle is a prefix of hay (char lists, exact). -/
def listStarts : List Char → List Char → Bool
  | _, [] => true
  | [], _ :: _ => false
  | h :: t, h2 :: t2 => (h == h2) && listStarts t t2

/-- containsSub hay needle: needle occurs as a contiguous substring of hay. -/
def containsSub (hay needle : List Char) : Bool :=
  match hay with
  | [] => needle.isEmpty
  | _ :: t => listStarts hay needle || containsSub t needle

/-- Lower-case a string to a char list (models re.IGNORECASE: the source
patterns are all lower-case literals, the searched field is lowered). -/
def lowerChars (s : String) : List Char :=
  s.toList.map Char.toLower

/-- Whitespace characters removed by str.strip(). -/
def isStripChar (c : Char) : Bool :=
  c == ' ' || c == '\t' || c == '\n' || c == '\r' || c == '\x0b' || c == '\x0c'

/-- str.strip() on a char list. -/
def trimChars (l : List Char) : List Char :=
  ((l.dropWhile isStripChar).reverse.dropWhile isStripChar).reverse

/-- str.strip() on a string. -/
def strTrim (s : String) : String :=
  ⟨trimChars s.data⟩

/-- reSearch pats field: models PATTERN.search(field) where PATTERN is the
case-insensitive alternation of the literal words pats. -/
def reSearch (pats : List String) (field : String) : Bool :=
  pats.any (fun p => containsSub (lowerChars field) p.toList)

/-! ## Classifier patterns (source lines 58-70) -/

def NFL_pats : List String := ["nfl"]
def MLB_pats : List String := ["mlb"]
def WNBA_pats : List String := ["wnba"]
def NBA_pats : List String := ["nba"]
def NHL_pats : List String := ["nhl"]
def SOCCER_pats : List String := ["laliga", "bundesliga", "ucl", "epl", "mls", "ligue1", "seriea", "fifa"]
def GOLF_pats : List String := ["pga"]
def MOTORSPORT_pats : List String := ["f1", "nascar"]
def TENNIS_pats : List String := ["atp", "wta", "mensingles", "womensingles"]
def NCAAM_pats : List String := ["kxmarmad", "ncaam", "ncaab"]
def NCAAW_pats : List String := ["kxwmarmad", "ncaaw"]
def NCAAF_pats : List String := ["ncaaf"]
def COMBAT_pats : List String := ["ufc", "boxing"]

/-- SPORT_CATEGORIES list from the source (line 72). -/
def SPORT_CATEGORIES : List String :=
  ["nfl", "mlb", "nba", "wnba", "nhl", "soccer", "golf", "motorsport",
   "tennis", "ncaam", "ncaaw", "ncaaf", "combat"]

/-- The rule tests of classify_sport applied to one field, in the exact
order the source tests them (lines 340-365): wnba is tested first, then
nfl, mlb, nba, nhl, soccer, golf, motorsport, tennis, ncaam, ncaaw,
ncaaf, combat. Returns none when the field is empty or matches no rule
(the source then falls through to the next field). -/
def classifyField (field : String) : Option String :=
  if field = "" then none
  else if reSearch WNBA_pats field then some "wnba"
  else if reSearch NFL_pats field then some "nfl"
  else if reSearch MLB_pats field then some "mlb"
  else if reSearch NBA_pats field then some "nba"
  else if reSearch NHL_pats field then some "nhl"
  else if reSearch SOCCER_pats field then some "soccer"
  else if reSearch GOLF_pats field then some "golf"
  else if reSearch MOTORSPORT_pats field then some "motorsport"
  else if reSearch TENNIS_pats field then some "tennis"
  else if reSearch NCAAM_pats field then some "ncaam"
  else if reSearch NCAAW_pats field then some "ncaaw"
  else if reSearch NCAAF_pats field then some "ncaaf"
  else if reSearch COMBAT_pats field then some "combat"
  else none

/-- classify_sport (source lines 336-366): examines ticker, then category,
then event_ticker; the first field yielding a rule match decides; empty
result string means no sport. -/
def classify_sport (ticker category event_ticker : String) : String :=
  match classifyField ticker with
  | some s => s
  | none =>
    match classifyField category with
    | some s => s
    | none =>
      match classifyField event_ticker with
      | some s => s
      | none => ""

/-- The rule list of classify_sport in the order the source tests the
rules inside one field. -/
def ruleList : List (List String × String) :=
  [(WNBA_pats, "wnba"), (NFL_pats, "nfl"), (MLB_pats, "mlb"),
   (NBA_pats, "nba"), (NHL_pats, "nhl"), (SOCCER_pats, "soccer"),
   (GOLF_pats, "golf"), (MOTORSPORT_pats, "motorsport"),
   (TENNIS_pats, "tennis"), (NCAAM_pats, "ncaam"), (NCAAW_pats, "ncaaw"),
   (NCAAF_pats, "ncaaf"), (COMBAT_pats, "combat")]

/-! ## Retry model (source lines 110-135)

The function _api_request_with_retry loops attempt = 0 .. max_retries-1;
on a 429 response it sleeps RETRY_BASE_DELAY * 2^attempt seconds and
continues; on an error status it raises an HTTP error; otherwise it
returns the response; after the loop it raises the retry-exhausted
exception. -/

/-- RETRY_BASE_DELAY = 5.0 seconds (source line 44). -/
def RETRY_BASE_DELAY : ℚ := 5

/-- MAX_RETRIES = 3 (source line 45). -/
def MAX_RETRIES : Nat := 3

/-- A response as seen by one attempt: rate-limited (429), a success
carrying a payload, or another HTTP error status. -/
inductive Resp where
  | rl : Resp
  | ok : Nat → Resp
  | err : Nat → Resp
deriving DecidableEq, Repr

/-- Outcome of the retry wrapper. -/
inductive ReqOutcome where
  | success : Nat → ReqOutcome
  | httpErr : Nat → ReqOutcome
  | retryExhausted : ReqOutcome
deriving DecidableEq, Repr

/-- Loop body of _api_request_with_retry: fuel counts the remaining
attempts, attempt is the 0-based attempt index, sleeps records the waits
performed so far in order. -/
def retryGo (responses : Nat → Resp) : Nat → Nat → List ℚ → ReqOutcome × List ℚ
  | _, 0, sleeps => (ReqOutcome.retryExhausted, sleeps)
  | attempt, fuel + 1, sleeps =>
    match responses attempt with
    | Resp.rl => retryGo responses (attempt + 1) fuel (sleeps ++ [RETRY_BASE_DELAY * 2 ^ attempt])
    | Resp.ok v => (ReqOutcome.success v, sleeps)
    | Resp.err c => (ReqOutcome.httpErr c, sleeps)

/-- _api_request_with_retry: responses gives the server response at each
attempt index; returns the outcome and the list of sleep durations. -/
def apiRequestWithRetry (responses : Nat → Resp) (max_retries : Nat := MAX_RETRIES) :
    ReqOutcome × List ℚ :=
  retryGo responses 0 max_retries []

/-! ## Association lists

Python dicts preserve insertion order; we model them as association
lists: assignment updates in place or appends a new entry at the end. -/

section AList
variable {κ : Type} {α : Type} [DecidableEq κ]

/-- Lookup: first entry with the given key. -/
def alGet : List (κ × α) → κ → Option α
  | [], _ => none
  | (k2, v) :: t, k => if k2 = k then some v else alGet t k

/-- Lookup with default, models dict.get(k, d). -/
def alGetD (m : List (κ × α)) (k : κ) (d : α) : α :=
  (alGet m k).getD d

/-- Assignment m[k] = v: update in place, else append. -/
def alSet : List (κ × α) → κ → α → List (κ × α)
  | [], k, v => [(k, v)]
  | (k2, v2) :: t, k, v =>
    if k2 = k then (k2, v) :: t else (k2, v2) :: alSet t k v

/-- m[k] = m.get(k, 0) + q for counter maps. -/
def alAdd : List (κ × Nat) → κ → Nat → List (κ × Nat)
  | [], k, q => [(k, q)]
  | (k2, v) :: t, k, q =>
    if k2 = k then (k2, v + q) :: t else (k2, v) :: alAdd t k q

/-- m.setdefault(k, v): insert (k, v) only when k is absent. -/
def alSetD (m : List (κ × α)) (k : κ) (v : α) : List (κ × α) :=
  if (alGet m k).isSome then m else m ++ [(k, v)]

/-- Key list of the map, in insertion order. -/
def alKeys (m : List (κ × α)) : List κ :=
  m.map Prod.fst

/-- Sum of the values of a counter map. -/
def alSum (m : List (κ × Nat)) : Nat :=
  (m.map Prod.snd).sum

end AList

/-! ## Timestamp parsing (source lines 153-177)

parse_ts accepts an epoch number (milliseconds when the value exceeds
1e12, else seconds), a digit string treated the same way, or an ISO-8601
string; a trailing Z is rewritten to +00:00 and the text is parsed as
naive-UTC or offset-aware; a naive datetime is assigned UTC. The model
covers the formats the source accepts through fromisoformat/strptime in
the shape YYYY-MM-DDTHH:MM:SS with an optional +HH:MM / -HH:MM offset;
an unrecognized string raises, modelled as none. -/

/-- Parsed datetime fields plus UTC-offset minutes. -/
structure DT where
  year : Nat
  month : Nat
  day : Nat
  hour : Nat
  minute : Nat
  second : Nat
  offsetMinutes : Int
deriving DecidableEq, Repr

/-- Value of a decimal digit character. -/
def digitVal (c : Char) : Option Nat :=
  if c.isDigit then some (c.toNat - 48) else none

/-- Read exactly n digit characters as a number, returning the rest. -/
def takeDigitsAux : Nat → Nat → List Char → Option (Nat × List Char)
  | 0, acc, cs => some (acc, cs)
  | n + 1, acc, c :: cs =>
    match digitVal c with
    | some d => takeDigitsAux n (acc * 10 + d) cs
    | none => none
  | _ + 1, _, [] => none

def takeDigits (n : Nat) (cs : List Char) : Option (Nat × List Char) :=
  takeDigitsAux n 0 cs

/-- Consume one expected character. -/
def expectChar (c : Char) : List Char → Option (List Char)
  | x :: t => if x == c then some t else none
  | [] => none

/-- Parse YYYY-MM-DDTHH:MM:SS with an optional +HH:MM or -HH:MM offset;
a naive text gets offset 0 (the source assigns tzinfo = UTC). -/
def parseIsoCore (cs0 : List Char) : Option DT := do
  let (y, cs) ← takeDigits 4 cs0
  let cs ← expectChar '-' cs
  let (mo, cs) ← takeDigits 2 cs
  let cs ← expectChar '-' cs
  let (d, cs) ← takeDigits 2 cs
  let cs ← expectChar 'T' cs
  let (h, cs) ← takeDigits 2 cs
  let cs ← expectChar ':' cs
  let (mi, cs) ← takeDigits 2 cs
  let cs ← expectChar ':' cs
  let (sec, cs) ← takeDigits 2 cs
  match cs with
  | [] => some ⟨y, mo, d, h, mi, sec, 0⟩
  | sign :: rest =>
    if sign == '+' || sign == '-' then do
      let (oh, rest) ← takeDigits 2 rest
      let rest ← expectChar ':' rest
      let (om, rest) ← takeDigits 2 rest
      if rest.isEmpty then
        let off : Int := (oh * 60 + om : Nat)
        some ⟨y, mo, d, h, mi, sec, if sign == '-' then -off else off⟩
      else none
    else none

/-- Days from 1970-01-01 to the given civil date (proleptic Gregorian),
the standard era-based algorithm used by datetime's ordinal arithmetic. -/
def daysFromCivil (y m d : Int) : Int :=
  let y2 := if m ≤ 2 then y - 1 else y
  let era := (if 0 ≤ y2 then y2 else y2 - 399) / 400
  let yoe := y2 - era * 400
  let mp := (m + 9) % 12
  let doy := (153 * mp + 2) / 5 + d - 1
  let doe := yoe * 365 + yoe / 4 - yoe / 100 + doy
  era * 146097 + doe - 719468

/-- int(dt.timestamp()) for an offset-aware datetime. -/
def dtToEpoch (dt : DT) : Int :=
  daysFromCivil dt.year dt.month dt.day * 86400
    + dt.hour * 3600 + dt.minute * 60 + dt.second - dt.offsetMinutes * 60

/-- Input to parse_ts: a number (int/float) or a string. -/
inductive TsVal where
  | num : Int → TsVal
  | str : String → TsVal

/-- Digit string to its value. -/
def digitsToNat (cs : List Char) : Nat :=
  cs.foldl (fun a c => a * 10 + (c.toNat - 48)) 0

/-- parse_ts (source lines 153-177); none models the ValueError raised
on an unrecognized format. -/
def parse_ts : TsVal → Option Int
  | TsVal.num x => some (if x > 1000000000000 then x / 1000 else x)
  | TsVal.str v =>
    let s := trimChars v.toList
    if s ≠ [] ∧ s.all Char.isDigit then
      let n : Int := digitsToNat s
      some (if n > 1000000000000 then n / 1000 else n)
    else
      let s2 := if s.getLast? = some 'Z' then s.dropLast ++ "+00:00".toList else s
      (parseIsoCore s2).map dtToEpoch

/-! ## Date range (source lines 138-142)

Local calendar days are modelled by their day ordinal (a Nat); the
source keys dicts by the ISO date string, whose lexicographic order
coincides with the ordinal order for Gregorian dates. -/

/-- _daterange_inclusive: [start_d, start_d + 1, ..., end_d]. -/
def daterangeInclusive (start_d end_d : Nat) : List Nat :=
  List.range' start_d (end_d + 1 - start_d)

/-! ## Trade bucketing (source lines 397-429)

A RawTrade carries the parsed timestamp (none when no timestamp field of
the record parses; such trades are skipped), the ticker ("" models a
missing or empty ticker), and the quantity int(t.get("count", 0) or 0).
dayOf maps an epoch timestamp to its local calendar day. -/

structure RawTrade where
  ts : Option Int
  ticker : String
  count : Nat
deriving DecidableEq, Repr

/-- One iteration of the bucketing loop: totals_by_day gains the trade
quantity at its local day; ticker_by_day gains it under the day and the
ticker only when the ticker is non-empty. -/
def bucketStep (dayOf : Int → Nat)
    (acc : List (Nat × Nat) × List (Nat × List (String × Nat))) (t : RawTrade) :
    List (Nat × Nat) × List (Nat × List (String × Nat)) :=
  match t.ts with
  | none => acc
  | some ts =>
    let d := dayOf ts
    let totals := alAdd acc.1 d t.count
    let tbd :=
      if t.ticker = "" then acc.2
      else alSet acc.2 d (alAdd (alGetD acc.2 d []) t.ticker t.count)
    (totals, tbd)

/-- The bucketing loop over all fetched trades. -/
def bucketTrades (dayOf : Int → Nat) (trades : List RawTrade) :
    List (Nat × Nat) × List (Nat × List (String × Nat)) :=
  trades.foldl (bucketStep dayOf) ([], [])

/-- Pre-seeding loop (source lines 426-429): every day of the window is
given a zero total and an empty per-ticker map via setdefault. -/
def preseedStep (acc : List (Nat × Nat) × List (Nat × List (String × Nat))) (d : Nat) :
    List (Nat × Nat) × List (Nat × List (String × Nat)) :=
  (alSetD acc.1 d 0, alSetD acc.2 d [])

def preseed (start_d end_d : Nat)
    (acc : List (Nat × Nat) × List (Nat × List (String × Nat))) :
    List (Nat × Nat) × List (Nat × List (String × Nat)) :=
  (daterangeInclusive start_d end_d).foldl preseedStep acc

/-! ## Metadata resolution (source lines 215-334 and 433-448) -/

/-- Per-ticker market metadata as stored by _lookup_markets: category and
event_ticker, both already stripped. -/
structure MarketInfo where
  category : String
  event_ticker : String
deriving DecidableEq, Repr

/-- One market record of an API response to the markets endpoint. -/
structure MarketR where
  ticker : String
  category : String
  event_ticker : String
deriving DecidableEq, Repr

/-- Result of one metadata request for one identifier, as seen by the
per-item loop of _lookup_markets: a payload, a 429 raised through to the
caller, another HTTP error status, or a non-HTTP exception. -/
inductive LookupResult where
  | ok : List MarketR → LookupResult
  | rateLimited : LookupResult
  | httpError : Nat → LookupResult
  | exn : LookupResult
deriving DecidableEq, Repr

/-- Incorporate one response payload: every market with a non-empty
ticker is stored under its ticker with stripped category/event_ticker
(source lines 238-243). -/
def insertMarkets (out : List (String × MarketInfo)) (ms : List MarketR) :
    List (String × MarketInfo) :=
  ms.foldl
    (fun o m =>
      if m.ticker ≠ "" then alSet o m.ticker ⟨strTrim m.category, strTrim m.event_ticker⟩ else o)
    out

/-- Body of the per-ticker loop of _lookup_markets: a success is
incorporated; a 429 sleeps and retries once via fetch2, incorporating a
success and logging-and-skipping any failure; any other HTTP error or
exception is logged and the ticker skipped. -/
def lookupMarketsStep (fetch1 fetch2 : String → LookupResult)
    (out : List (String × MarketInfo)) (tk : String) : List (String × MarketInfo) :=
  match fetch1 tk with
  | LookupResult.ok ms => insertMarkets out ms
  | LookupResult.rateLimited =>
    match fetch2 tk with
    | LookupResult.ok ms => insertMarkets out ms
    | _ => out
  | LookupResult.httpError _ => out
  | LookupResult.exn => out

/-- _lookup_markets over a list of tickers; fetch1 gives the outcome of
the first request for each ticker, fetch2 the outcome of the single
extra retry after a 429. -/
def lookupMarkets (fetch1 fetch2 : String → LookupResult) (tickers : List String) :
    List (String × MarketInfo) :=
  tickers.foldl (lookupMarketsStep fetch1 fetch2) []

/-- blanks_evt (source line 434): the event tickers of markets whose own
category is empty and whose event ticker is non-empty. -/
def blanksEvt (marketsMap : List (String × MarketInfo)) : List String :=
  (marketsMap.filter
    (fun p => decide (p.2.category = "" ∧ p.2.event_ticker ≠ ""))).map
    (fun p => p.2.event_ticker)

/-- final_category (source lines 437-448): ticker maps to a triple of
the category handed to the classifier, its provenance tag, and the
event ticker. -/
def buildFinalCategory (marketsMap : List (String × MarketInfo))
    (eventCatMap : List (String × String)) :
    List (String × (String × String × String)) :=
  marketsMap.map (fun p =>
    let tk := p.1
    let cat := p.2.category
    let evt := p.2.event_ticker
    if cat ≠ "" then (tk, (cat, "market", evt))
    else
      let evCat := if evt ≠ "" then strTrim (alGetD eventCatMap evt "") else ""
      if evCat ≠ "" then (tk, (evCat, "event", evt))
      else (tk, ("", "none", evt)))

/-! ## Daily rows (source lines 450-474) -/

/-- Round half to even at integer precision (Python round's tie rule). -/
def roundHalfEven (x : ℚ) : ℤ :=
  let f := ⌊x⌋
  let r := x - f
  if r < 1 / 2 then f
  else if 1 / 2 < r then f + 1
  else if f % 2 = 0 then f else f + 1

/-- round(x, 4). -/
def round4 (x : ℚ) : ℚ :=
  (roundHalfEven (x * 10000) : ℚ) / 10000

/-- The sport assigned to a traded ticker: the classifier applied to the
ticker together with the category and event ticker recorded for it, the
latter two defaulting to empty for an unknown ticker
(final_category.get(tk, ("", "none", ""))). -/
def sportOf (finalCat : List (String × (String × String × String))) (tk : String) : String :=
  let info := alGetD finalCat tk ("", "none", "")
  classify_sport tk info.1 info.2.2

/-- One iteration of the loop over per_ticker.items(): a classified
quantity goes into its sport's bucket and into sports_total. -/
def sportsStep (finalCat : List (String × (String × String × String)))
    (acc : List (String × Nat) × Nat) (p : String × Nat) : List (String × Nat) × Nat :=
  if sportOf finalCat p.1 ≠ "" then (alAdd acc.1 (sportOf finalCat p.1) p.2, acc.2 + p.2)
  else acc

/-- The inner loop over per_ticker.items() of one day: accumulates the
sport_volumes dict (pre-seeded with every sport at 0) and sports_total. -/
def sportsAgg (perTicker : List (String × Nat))
    (finalCat : List (String × (String × String × String))) :
    List (String × Nat) × Nat :=
  perTicker.foldl (sportsStep finalCat) (SPORT_CATEGORIES.map (fun s => (s, 0)), 0)

/-- One output row. -/
structure DailyRow where
  date : Nat
  total_volume : Nat
  sports_volume : Nat
  sports_pct : ℚ
  sport_volumes : List (String × Nat)
deriving DecidableEq, Repr

/-- Build the row of one day (source lines 452-474). The source indexes
ticker_by_day[d] directly; pre-seeding guarantees an entry for every
window day, modelled here as a lookup with default empty map. -/
def rowOfDay (totals : List (Nat × Nat)) (tbd : List (Nat × List (String × Nat)))
    (finalCat : List (String × (String × String × String))) (d : Nat) : DailyRow :=
  let total := alGetD totals d 0
  let perTicker := alGetD tbd d []
  let agg := sportsAgg perTicker finalCat
  let pct : ℚ := if total ≠ 0 then (agg.2 : ℚ) / (total : ℚ) * 100 else 0
  { date := d, total_volume := total, sports_volume := agg.2,
    sports_pct := round4 pct, sport_volumes := agg.1 }

/-- The row loop: one row per key of totals_by_day, in sorted key order. -/
def computeRows (totals : List (Nat × Nat)) (tbd : List (Nat × List (String × Nat)))
    (finalCat : List (String × (String × String × String))) : List DailyRow :=
  (List.insertionSort (· ≤ ·) (alKeys totals)).map (rowOfDay totals tbd finalCat)

/-- The aggregation pipeline of main() from the fetched trades and the
resolved final_category map to the daily rows. -/
def pipelineRows (dayOf : Int → Nat) (trades : List RawTrade)
    (start_d end_d : Nat)
    (finalCat : List (String × (String × String × String))) : List DailyRow :=
  let acc := preseed start_d end_d (bucketTrades dayOf trades)
  computeRows acc.1 acc.2 finalCat

/-! ## Association list lemmas -/

section AListLemmas
variable {κ : Type} {α : Type} [DecidableEq κ]

theorem alGet_isSome_iff (m : List (κ × α)) (k : κ) :
    (alGet m k).isSome ↔ k ∈ alKeys m := by
  induction m with
  | nil => simp [alGet, alKeys]
  | cons p t ih =>
    obtain ⟨k2, v2⟩ := p
    by_cases h2 : k2 = k <;> simp [alGet, alKeys, h2, ih]
    exact fun h => absurd h.symm h2

theorem alGet_eq_none_of_not_mem (m : List (κ × α)) (k : κ) (h : k ∉ alKeys m) :
    alGet m k = none := by
  have := (alGet_isSome_iff m k).not.mpr h
  cases hg : alGet m k with
  | none => rfl
  | some v => rw [hg] at this; simp at this

theorem alGet_alAdd_self (m : List (κ × Nat)) (k : κ) (q : Nat) :
    alGet (alAdd m k q) k = some (alGetD m k 0 + q) := by
  induction m with
  | nil => simp [alAdd, alGet, alGetD]
  | cons p t ih =>
    obtain ⟨k2, v2⟩ := p
    by_cases h2 : k2 = k <;> simp [alAdd, alGet, alGetD, h2, ih]

theorem alGetD_alAdd_self (m : List (κ × Nat)) (k : κ) (q : Nat) :
    alGetD (alAdd m k q) k 0 = alGetD m k 0 + q := by
  simp [alGetD, alGet_alAdd_self]

theorem mem_alKeys_cons {p : κ × α} {t : List (κ × α)} {k : κ} :
    k ∈ alKeys (p :: t) ↔ k = p.1 ∨ k ∈ alKeys t := by
  simp [alKeys]

theorem alGet_alAdd_ne (m : List (κ × Nat)) (k : κ) (q : Nat) (d : κ) (h : d ≠ k) :
    alGet (alAdd m k q) d = alGet m d := by
  induction m with
  | nil => simp [alAdd, alGet, Ne.symm h]
  | cons p t ih =>
    obtain ⟨k2, v2⟩ := p
    simp only [alAdd]
    by_cases h2 : k2 = k
    · rw [if_pos h2]
      subst h2
      simp [alGet, Ne.symm h]
    · rw [if_neg h2]
      by_cases h3 : k2 = d <;> simp [alGet, h3, ih]

theorem alSum_alAdd (m : List (κ × Nat)) (k : κ) (q : Nat) :
    alSum (alAdd m k q) = alSum m + q := by
  induction m with
  | nil => simp [alAdd, alSum]
  | cons p t ih =>
    obtain ⟨k2, v2⟩ := p
    by_cases h2 : k2 = k
    · simp only [alAdd, if_pos h2, alSum, List.map_cons, List.sum_cons]
      omega
    · simp only [alAdd, if_neg h2, alSum, List.map_cons, List.sum_cons] at *
      omega

theorem alGet_alSet_self (m : List (κ × α)) (k : κ) (v : α) :
    alGet (alSet m k v) k = some v := by
  induction m with
  | nil => simp [alSet, alGet]
  | cons p t ih =>
    obtain ⟨k2, v2⟩ := p
    by_cases h2 : k2 = k <;> simp [alSet, alGet, h2, ih]

theorem alGet_alSet_ne (m : List (κ × α)) (k : κ) (v : α) (d : κ) (h : d ≠ k) :
    alGet (alSet m k v) d = alGet m d := by
  induction m with
  | nil => simp [alSet, alGet, Ne.symm h]
  | cons p t ih =>
    obtain ⟨k2, v2⟩ := p
    simp only [alSet]
    by_cases h2 : k2 = k
    · rw [if_pos h2]
      subst h2
      simp [alGet, Ne.symm h]
    · rw [if_neg h2]
      by_cases h3 : k2 = d <;> simp [alGet, h3, ih]

theorem alGetD_append_default (m : List (κ × α)) (k : κ) (v : α) (d : κ) :
    alGetD (m ++ [(k, v)]) d v = alGetD m d v := by
  induction m with
  | nil => by_cases h2 : k = d <;> simp [alGetD, alGet, h2]
  | cons p t ih =>
    obtain ⟨k2, v2⟩ := p
    by_cases h3 : k2 = d
    · simp [alGetD, alGet, h3]
    · simp only [List.cons_append, alGetD, alGet, if_neg h3]
      exact ih

theorem alGetD_alSetD_default (m : List (κ × α)) (k : κ) (v : α) (d : κ) :
    alGetD (alSetD m k v) d v = alGetD m d v := by
  unfold alSetD
  by_cases h : (alGet m k).isSome <;> simp [h, alGetD_append_default]

theorem alKeys_alAdd_of_mem {m : List (κ × Nat)} {k : κ} (q : Nat)
    (h : k ∈ alKeys m) : alKeys (alAdd m k q) = alKeys m := by
  induction m with
  | nil => simp [alKeys] at h
  | cons p t ih =>
    obtain ⟨k2, v2⟩ := p
    by_cases h2 : k2 = k
    · simp [alAdd, h2, alKeys]
    · have h3 : k ∈ alKeys t := by
        rcases mem_alKeys_cons.mp h with h4 | h4
        · exact absurd h4.symm h2
        · exact h4
      simp only [alAdd, if_neg h2, alKeys, List.map_cons]
      exact congrArg (List.cons k2) (ih h3)

theorem alKeys_alAdd_of_not_mem {m : List (κ × Nat)} {k : κ} (q : Nat)
    (h : k ∉ alKeys m) : alKeys (alAdd m k q) = alKeys m ++ [k] := by
  induction m with
  | nil => simp [alAdd, alKeys]
  | cons p t ih =>
    obtain ⟨k2, v2⟩ := p
    have h2 : k2 ≠ k := fun he => h (mem_alKeys_cons.mpr (Or.inl he.symm))
    have h3 : k ∉ alKeys t := fun hm => h (mem_alKeys_cons.mpr (Or.inr hm))
    simp only [alAdd, if_neg h2, alKeys, List.map_cons, List.cons_append]
    exact congrArg (List.cons k2) (ih h3)

theorem alKeys_alSet_of_mem {m : List (κ × α)} {k : κ} (v : α)
    (h : k ∈ alKeys m) : alKeys (alSet m k v) = alKeys m := by
  induction m with
  | nil => simp [alKeys] at h
  | cons p t ih =>
    obtain ⟨k2, v2⟩ := p
    by_cases h2 : k2 = k
    · simp [alSet, h2, alKeys]
    · have h3 : k ∈ alKeys t := by
        rcases mem_alKeys_cons.mp h with h4 | h4
        · exact absurd h4.symm h2
        · exact h4
      simp only [alSet, if_neg h2, alKeys, List.map_cons]
      exact congrArg (List.cons k2) (ih h3)

theorem alKeys_alSet_of_not_mem {m : List (κ × α)} {k : κ} (v : α)
    (h : k ∉ alKeys m) : alKeys (alSet m k v) = alKeys m ++ [k] := by
  induction m with
  | nil => simp [alSet, alKeys]
  | cons p t ih =>
    obtain ⟨k2, v2⟩ := p
    have h2 : k2 ≠ k := fun he => h (mem_alKeys_cons.mpr (Or.inl he.symm))
    have h3 : k ∉ alKeys t := fun hm => h (mem_alKeys_cons.mpr (Or.inr hm))
    simp only [alSet, if_neg h2, alKeys, List.map_cons, List.cons_append]
    exact congrArg (List.cons k2) (ih h3)

theorem alKeys_alSetD_of_mem {m : List (κ × α)} {k : κ} (v : α)
    (h : k ∈ alKeys m) : alKeys (alSetD m k v) = alKeys m := by
  have h2 : (alGet m k).isSome := (alGet_isSome_iff m k).mpr h
  simp [alSetD, h2]

theorem alKeys_alSetD_of_not_mem {m : List (κ × α)} {k : κ} (v : α)
    (h : k ∉ alKeys m) : alKeys (alSetD m k v) = alKeys m ++ [k] := by
  have h2 : ¬(alGet m k).isSome := fun hs => h ((alGet_isSome_iff m k).mp hs)
  simp [alSetD, h2, alKeys]

theorem nodup_alKeys_alAdd {m : List (κ × Nat)} (k : κ) (q : Nat)
    (h : (alKeys m).Nodup) : (alKeys (alAdd m k q)).Nodup := by
  by_cases h2 : k ∈ alKeys m
  · rw [alKeys_alAdd_of_mem q h2]; exact h
  · rw [alKeys_alAdd_of_not_mem q h2]
    simp [List.nodup_append, h, h2]

theorem nodup_alKeys_alSet {m : List (κ × α)} (k : κ) (v : α)
    (h : (alKeys m).Nodup) : (alKeys (alSet m k v)).Nodup := by
  by_cases h2 : k ∈ alKeys m
  · rw [alKeys_alSet_of_mem v h2]; exact h
  · rw [alKeys_alSet_of_not_mem v h2]
    simp [List.nodup_append, h, h2]

theorem nodup_alKeys_alSetD {m : List (κ × α)} (k : κ) (v : α)
    (h : (alKeys m).Nodup) : (alKeys (alSetD m k v)).Nodup := by
  by_cases h2 : k ∈ alKeys m
  · rw [alKeys_alSetD_of_mem v h2]; exact h
  · rw [alKeys_alSetD_of_not_mem v h2]
    simp [List.nodup_append, h, h2]

theorem mem_alKeys_alSetD_self (m : List (κ × α)) (k : κ) (v : α) :
    k ∈ alKeys (alSetD m k v) := by
  by_cases h2 : k ∈ alKeys m
  · rw [alKeys_alSetD_of_mem v h2]; exact h2
  · rw [alKeys_alSetD_of_not_mem v h2]; simp

theorem mem_alKeys_alSetD_of_mem (m : List (κ × α)) (k : κ) (v : α) (d : κ)
    (h : d ∈ alKeys m) : d ∈ alKeys (alSetD m k v) := by
  by_cases h2 : k ∈ alKeys m
  · rw [alKeys_alSetD_of_mem v h2]; exact h
  · rw [alKeys_alSetD_of_not_mem v h2]; simp [h]

end AListLemmas

/-! ## Retry lemmas -/

theorem retryGo_rl_run (responses : Nat → Resp) (v : Nat) (k : Nat) :
    ∀ (fuel attempt : Nat) (sleeps : List ℚ), k < fuel →
      (∀ i, i < k → responses (attempt + i) = Resp.rl) →
      responses (attempt + k) = Resp.ok v →
      retryGo responses attempt fuel sleeps =
        (ReqOutcome.success v,
          sleeps ++ (List.range k).map (fun i => RETRY_BASE_DELAY * 2 ^ (attempt + i))) := by
  induction k with
  | zero =>
    intro fuel attempt sleeps hf hrl hok
    match fuel, hf with
    | fuel + 1, _ =>
      rw [Nat.add_zero] at hok
      simp [retryGo, hok]
  | succ k ih =>
    intro fuel attempt sleeps hf hrl hok
    match fuel, hf with
    | fuel + 1, hf =>
      have h0 : responses attempt = Resp.rl := by
        have h1 := hrl 0 (Nat.succ_pos k)
        simpa using h1
      simp only [retryGo, h0]
      rw [ih fuel (attempt + 1) _ (by omega)
        (fun i hi => by
          have h2 := hrl (i + 1) (by omega)
          have h3 : attempt + (i + 1) = attempt + 1 + i := by omega
          rw [h3] at h2
          exact h2)
        (by
          have h3 : attempt + (k + 1) = attempt + 1 + k := by omega
          rw [h3] at hok
          exact hok)]
      have hmap : List.map (fun i => RETRY_BASE_DELAY * 2 ^ (attempt + 1 + i)) (List.range k)
          = List.map ((fun i => RETRY_BASE_DELAY * 2 ^ (attempt + i)) ∘ Nat.succ) (List.range k) :=
        List.map_congr_left (fun i _ => by
          have h4 : attempt + 1 + i = attempt + (i + 1) := by omega
          simp [Function.comp, h4])
      rw [List.range_succ_eq_map, List.map_cons, List.map_map, List.append_assoc,
        List.singleton_append, hmap]
      norm_num

theorem retryGo_all_rl (responses : Nat → Resp) (h : ∀ i, responses i = Resp.rl) :
    ∀ (fuel attempt : Nat) (sleeps : List ℚ),
      (retryGo responses attempt fuel sleeps).1 = ReqOutcome.retryExhausted := by
  intro fuel
  induction fuel with
  | zero => intro attempt sleeps; rfl
  | succ f ih => intro attempt sleeps; simp [retryGo, h attempt, ih]

theorem retry_sleeps_strict_mono (k : Nat) :
    ((List.range k).map (fun i => RETRY_BASE_DELAY * 2 ^ i)).Pairwise (· < ·) := by
  refine List.Pairwise.map _ (fun a b hab => ?_) (List.pairwise_lt_range k)
  have h2 : (2 : ℚ) ^ a < 2 ^ b := pow_lt_pow_right₀ one_lt_two hab
  have h5 : (0 : ℚ) < 5 := by norm_num
  simpa [RETRY_BASE_DELAY] using (mul_lt_mul_of_pos_left h2 h5)

/-- C1 (corrected): with the configured MAX_RETRIES = 3, the call that
receives three consecutive 429 responses followed by a success does NOT
return the success: the third 429 consumes the final attempt, the loop
ends, and the retry-exhausted error is raised — after having slept
5·2^0, 5·2^1 and 5·2^2 seconds. -/
theorem C1_counterexample :
    (apiRequestWithRetry (fun i => if i < 3 then Resp.rl else Resp.ok 7) MAX_RETRIES).1
        = ReqOutcome.retryExhausted ∧
    (apiRequestWithRetry (fun i => if i < 3 then Resp.rl else Resp.ok 7) MAX_RETRIES).2
        = [5, 10, 20] := by
  constructor
  · rfl
  · show [RETRY_BASE_DELAY * 2 ^ 0, RETRY_BASE_DELAY * 2 ^ 1, RETRY_BASE_DELAY * 2 ^ 2]
        = [5, 10, 20]
    norm_num [RETRY_BASE_DELAY]

/-- C1 (amended): on each 429 the wrapper sleeps base_delay · 2^attempt
seconds, so successive waits are strictly increasing; a success obtained
while attempts remain is returned after exactly the preceding waits;
responses that are all rate-limited exhaust the attempt count and raise
the retry-exhausted error; and at the configured MAX_RETRIES = 3, three
consecutive 429 responses followed by a success already exhaust the
attempts and raise the retry-exhausted error (k consecutive 429s then a
success returns the success only when k < max_retries). -/
theorem C1_retry_behavior (k max_retries v : Nat) (hk : k < max_retries) :
    apiRequestWithRetry (fun i => if i < k then Resp.rl else Resp.ok v) max_retries
        = (ReqOutcome.success v, (List.range k).map (fun i => RETRY_BASE_DELAY * 2 ^ i)) ∧
    ((List.range k).map (fun i => RETRY_BASE_DELAY * 2 ^ i)).Pairwise (· < ·) ∧
    (apiRequestWithRetry (fun _ => Resp.rl) max_retries).1 = ReqOutcome.retryExhausted ∧
    (apiRequestWithRetry (fun i => if i < 3 then Resp.rl else Resp.ok v) MAX_RETRIES).1
        = ReqOutcome.retryExhausted := by
  refine ⟨?_, retry_sleeps_strict_mono k, retryGo_all_rl _ (fun _ => rfl) max_retries 0 [], rfl⟩
  have h := retryGo_rl_run (fun i => if i < k then Resp.rl else Resp.ok v) v k
    max_retries 0 [] hk
    (fun i hi => by simp [hi])
    (by simp)
  simpa [apiRequestWithRetry] using h

/-- Witness for C1_retry_behavior at k = 2, max_retries = 3: two 429s
then a success is returned with waits 5 and 10. -/
theorem C1_retry_behavior_witness :
    apiRequestWithRetry (fun i => if i < 2 then Resp.rl else Resp.ok 7) 3
        = (ReqOutcome.success 7, [5, 10]) := by
  have h := (C1_retry_behavior 2 3 7 (by norm_num)).1
  rw [h]
  norm_num [RETRY_BASE_DELAY, List.range_succ]

/-- C2 (confirmed): classify_sport examines ticker, then category, then
event_ticker; the first field on which some rule fires decides the
result and later fields are never consulted; a field that is empty or
matches no rule falls through; when no field matches the result is the
no-sport value ""; and "KXNFLGAME-24" classifies as "nfl" whatever the
category and event ticker are. -/
theorem C2_classifier_field_precedence (t c e s : String) :
    (classifyField t = some s → classify_sport t c e = s) ∧
    (classifyField t = none → classifyField c = some s → classify_sport t c e = s) ∧
    (classifyField t = none → classifyField c = none → classifyField e = some s →
      classify_sport t c e = s) ∧
    (classifyField t = none → classifyField c = none → classifyField e = none →
      classify_sport t c e = "") ∧
    classifyField "" = none ∧
    classify_sport "KXNFLGAME-24" c e = "nfl" := by
  refine ⟨?_, ?_, ?_, ?_, by simp [classifyField], ?_⟩
  · intro h1
    simp [classify_sport, h1]
  · intro h1 h2
    simp [classify_sport, h1, h2]
  · intro h1 h2 h3
    simp [classify_sport, h1, h2, h3]
  · intro h1 h2 h3
    simp [classify_sport, h1, h2, h3]
  · have h4 : classifyField "KXNFLGAME-24" = some "nfl" := by decide
    simp [classify_sport, h4]

/-- Witness for C2_classifier_field_precedence: the first conjunct at a
concrete matching ticker. -/
theorem C2_classifier_witness : classify_sport "KXNFLGAME-24" "pga" "ucl" = "nfl" :=
  (C2_classifier_field_precedence "KXNFLGAME-24" "pga" "ucl" "nfl").1 (by decide)

theorem find?_cons_eq {α : Type} (p : α → Bool) (a : α) (l : List α) :
    List.find? p (a :: l) = if p a then some a else List.find? p l := by
  by_cases h : p a <;> simp [List.find?, h]

/-- C3 counterexample: the field "WNBANFL" matches both the
american-football rule (nfl) and the women's-basketball rule (wnba); the
section-4.5 enumeration lists american-football first, so the claim
predicts "nfl", but classify_sport tests the wnba rule first and returns
"wnba". -/
theorem C3_counterexample :
    reSearch NFL_pats "WNBANFL" = true ∧ reSearch WNBA_pats "WNBANFL" = true ∧
    classify_sport "WNBANFL" "" "" = "wnba" ∧ ("wnba" : String) ≠ "nfl" := by
  decide

/-- The rule chain of classify_sport as a fold over a rule list; the
body of classifyField for a non-empty field is this chain at ruleList. -/
def classifyFieldRules (rules : List (List String × String)) (field : String) : Option String :=
  match rules with
  | [] => none
  | r :: rest => if reSearch r.1 field then some r.2 else classifyFieldRules rest field

theorem classifyFieldRules_eq_find? (rules : List (List String × String)) (field : String) :
    classifyFieldRules rules field
      = (rules.find? (fun r => reSearch r.1 field)).map Prod.snd := by
  induction rules with
  | nil => rfl
  | cons r rest ih =>
    by_cases h : reSearch r.1 field <;>
      simp [classifyFieldRules, find?_cons_eq, h, ih]

theorem classifyField_eq_rules (field : String) (h : field ≠ "") :
    classifyField field = classifyFieldRules ruleList field := by
  unfold classifyField
  rw [if_neg h]
  rfl

/-- C3 (amended): within one field the first matching rule wins in the
order the code tests the rules — wnba, nfl, mlb, nba, nhl, soccer, golf,
motorsport, tennis, ncaam, ncaaw, ncaaf, combat — which differs from the
section-4.5 enumeration only in that women's basketball is tested first
(the remaining rules keep the enumerated order); soccer still precedes
golf, so a field matching only the soccer and golf rules classifies as
soccer. -/
theorem C3_first_rule_in_code_order_wins (field : String) (h : field ≠ "") :
    classifyField field = (ruleList.find? (fun r => reSearch r.1 field)).map Prod.snd ∧
    classify_sport "uclpga" "" "" = "soccer" := by
  refine ⟨?_, by decide⟩
  rw [classifyField_eq_rules field h, classifyFieldRules_eq_find?]

/-- Witness for C3_first_rule_in_code_order_wins at field "WNBANFL". -/
theorem C3_first_rule_witness :
    classifyField "WNBANFL"
        = (ruleList.find? (fun r => reSearch r.1 "WNBANFL")).map Prod.snd :=
  (C3_first_rule_in_code_order_wins "WNBANFL" (by decide)).1

/-- C8 (confirmed): parse_ts maps a milliseconds epoch value to the same
result as the corresponding seconds value (for every epoch count in the
range where the 1e12 magnitude test distinguishes the two encodings),
with 1700000000 and 1700000000000 both mapping to 1700000000, and maps
"2024-01-01T00:00:00Z" to 1704067200, the epoch seconds of midnight UTC
on January 1, 2024. -/
theorem C8_parse_ts_units (v : Int) (h1 : 1000000000 < v) (h2 : v ≤ 1000000000000) :
    parse_ts (TsVal.num v) = some v ∧
    parse_ts (TsVal.num (v * 1000)) = some v ∧
    parse_ts (TsVal.num 1700000000) = some 1700000000 ∧
    parse_ts (TsVal.num 1700000000000) = some 1700000000 ∧
    parse_ts (TsVal.str "2024-01-01T00:00:00Z") = some 1704067200 := by
  refine ⟨?_, ?_, by decide, by decide, by decide⟩
  · simp only [parse_ts, Option.some.injEq]
    rw [if_neg (by omega)]
  · simp only [parse_ts, Option.some.injEq]
    rw [if_pos (by omega)]
    omega

/-- Witness for C8_parse_ts_units at v = 1700000000. -/
theorem C8_parse_ts_witness :
    parse_ts (TsVal.num 1700000000) = some 1700000000 ∧
    parse_ts (TsVal.num (1700000000 * 1000)) = some 1700000000 :=
  ⟨(C8_parse_ts_units 1700000000 (by norm_num) (by norm_num)).1,
   (C8_parse_ts_units 1700000000 (by norm_num) (by norm_num)).2.1⟩

/-- C9 (confirmed): for every ticker of the market-metadata mapping, the
category handed to the classifier is the market's own category when
non-empty, else the category looked up for its parent event (empty when
the event has none or the event ticker is absent); and blanks_evt — the
set of events looked up — holds exactly the event tickers of markets
whose own category is empty and whose event ticker is present. -/
theorem C9_category_fallback (marketsMap : List (String × MarketInfo))
    (eventCatMap : List (String × String)) :
    (∀ p ∈ marketsMap, ∃ q ∈ buildFinalCategory marketsMap eventCatMap,
        q.1 = p.1 ∧
        q.2.1 = (if p.2.category ≠ "" then p.2.category
          else if p.2.event_ticker ≠ ""
            then strTrim (alGetD eventCatMap p.2.event_ticker "") else "")) ∧
    (∀ ev, ev ∈ blanksEvt marketsMap ↔
      ∃ p ∈ marketsMap, p.2.category = "" ∧ p.2.event_ticker ≠ "" ∧ p.2.event_ticker = ev) := by
  constructor
  · intro p hp
    refine ⟨_, List.mem_map_of_mem _ hp, ?_, ?_⟩
    · simp only []
      split_ifs <;> rfl
    · simp only []
      split_ifs with hc he hv he <;> simp_all
  · intro ev
    simp only [blanksEvt, List.mem_map, List.mem_filter, decide_eq_true_eq]
    constructor
    · rintro ⟨p, ⟨hp, hcat, hevt⟩, hev⟩
      exact ⟨p, hp, hcat, hev ▸ hevt, hev⟩
    · rintro ⟨p, hp, hcat, hevt, hev⟩
      exact ⟨p, ⟨hp, hcat, hevt⟩, hev⟩

/-- Witness for C9_category_fallback: a market with an empty category
and a present event ticker puts that event ticker into blanks_evt. -/
theorem C9_category_witness :
    "EV1" ∈ blanksEvt [("T1", ⟨"", "EV1"⟩)] :=
  ((C9_category_fallback [("T1", ⟨"", "EV1"⟩)] []).2 "EV1").mpr
    ⟨("T1", ⟨"", "EV1"⟩), by simp, rfl, by decide, rfl⟩

/-! ## Aggregation lemmas -/

theorem alSum_cons {κ : Type} (p : κ × Nat) (t : List (κ × Nat)) :
    alSum (p :: t) = p.2 + alSum t := by
  simp [alSum]

theorem alSum_nil {κ : Type} : alSum ([] : List (κ × Nat)) = 0 := rfl

theorem sportsAgg_fold_inv (fc : List (String × (String × String × String)))
    (l : List (String × Nat)) :
    ∀ acc : List (String × Nat) × Nat,
      alSum (l.foldl (sportsStep fc) acc).1 + acc.2
          = alSum acc.1 + (l.foldl (sportsStep fc) acc).2 ∧
      (l.foldl (sportsStep fc) acc).2 ≤ acc.2 + alSum l := by
  induction l with
  | nil => intro acc; simp
  | cons p t ih =>
    intro acc
    rw [List.foldl_cons]
    obtain ⟨ihA, ihB⟩ := ih (sportsStep fc acc p)
    by_cases h : sportOf fc p.1 ≠ ""
    · have hstep : sportsStep fc acc p = (alAdd acc.1 (sportOf fc p.1) p.2, acc.2 + p.2) := by
        simp [sportsStep, h]
      rw [hstep] at ihA ihB ⊢
      dsimp only at ihA ihB
      have hsum := alSum_alAdd acc.1 (sportOf fc p.1) p.2
      rw [alSum_cons]
      constructor
      · omega
      · omega
    · have hstep : sportsStep fc acc p = acc := by
        simp [sportsStep, h]
      rw [hstep] at ihA ihB ⊢
      rw [alSum_cons]
      exact ⟨ihA, by omega⟩

theorem sportsAgg_zero_init : alSum (SPORT_CATEGORIES.map (fun s => (s, 0))) = 0 := by
  simp [SPORT_CATEGORIES, alSum]

theorem sportsAgg_sum (perTicker : List (String × Nat))
    (fc : List (String × (String × String × String))) :
    alSum (sportsAgg perTicker fc).1 = (sportsAgg perTicker fc).2 ∧
    (sportsAgg perTicker fc).2 ≤ alSum perTicker := by
  obtain ⟨hA, hB⟩ :=
    sportsAgg_fold_inv fc perTicker (SPORT_CATEGORIES.map (fun s => (s, 0)), 0)
  unfold sportsAgg
  rw [sportsAgg_zero_init] at hA
  exact ⟨by omega, by omega⟩

/-- The invariant of the bucketing maps: on every day, the quantities of
the per-ticker map sum to at most the day's total. -/
def volInv (acc : List (Nat × Nat) × List (Nat × List (String × Nat))) : Prop :=
  ∀ d, alSum (alGetD acc.2 d []) ≤ alGetD acc.1 d 0

theorem bucketStep_volInv (dayOf : Int → Nat)
    (acc : List (Nat × Nat) × List (Nat × List (String × Nat))) (t : RawTrade)
    (h : volInv acc) : volInv (bucketStep dayOf acc t) := by
  cases hts : t.ts with
  | none =>
    have hbs : bucketStep dayOf acc t = acc := by
      simp [bucketStep, hts]
    rw [hbs]
    exact h
  | some τ =>
    by_cases htk : t.ticker = ""
    · have hbs : bucketStep dayOf acc t = (alAdd acc.1 (dayOf τ) t.count, acc.2) := by
        simp [bucketStep, hts, htk]
      rw [hbs]
      intro d
      dsimp only
      by_cases hd : d = dayOf τ
      · rw [hd]
        unfold alGetD
        rw [alGet_alAdd_self, Option.getD_some]
        unfold alGetD
        have h2 := h (dayOf τ)
        unfold alGetD at h2
        omega
      · unfold alGetD
        rw [alGet_alAdd_ne _ _ _ _ hd]
        exact h d
    · have hbs : bucketStep dayOf acc t
          = (alAdd acc.1 (dayOf τ) t.count,
             alSet acc.2 (dayOf τ) (alAdd (alGetD acc.2 (dayOf τ) []) t.ticker t.count)) := by
        simp [bucketStep, hts, htk]
      rw [hbs]
      intro d
      dsimp only
      by_cases hd : d = dayOf τ
      · rw [hd]
        unfold alGetD
        rw [alGet_alAdd_self, alGet_alSet_self, Option.getD_some, Option.getD_some, alSum_alAdd]
        unfold alGetD
        have h2 := h (dayOf τ)
        unfold alGetD at h2
        omega
      · unfold alGetD
        rw [alGet_alAdd_ne _ _ _ _ hd, alGet_alSet_ne _ _ _ _ hd]
        exact h d

theorem bucketTrades_volInv (dayOf : Int → Nat) (trades : List RawTrade) :
    volInv (bucketTrades dayOf trades) := by
  unfold bucketTrades
  have hgen : ∀ (l : List RawTrade) (acc), volInv acc →
      volInv (l.foldl (bucketStep dayOf) acc) := by
    intro l
    induction l with
    | nil => exact fun acc h => h
    | cons t ts ih =>
      intro acc h
      rw [List.foldl_cons]
      exact ih _ (bucketStep_volInv dayOf acc t h)
  apply hgen
  intro d
  simp [alGetD, alGet, alSum]

theorem preseedStep_volInv (acc : List (Nat × Nat) × List (Nat × List (String × Nat)))
    (d : Nat) (h : volInv acc) : volInv (preseedStep acc d) := by
  intro d2
  unfold preseedStep
  rw [show (alSetD acc.1 d 0, alSetD acc.2 d []).2 = alSetD acc.2 d [] from rfl,
    show (alSetD acc.1 d 0, alSetD acc.2 d []).1 = alSetD acc.1 d 0 from rfl,
    alGetD_alSetD_default, alGetD_alSetD_default]
  exact h d2

theorem preseed_volInv (start_d end_d : Nat)
    (acc : List (Nat × Nat) × List (Nat × List (String × Nat)))
    (h : volInv acc) : volInv (preseed start_d end_d acc) := by
  unfold preseed
  generalize daterangeInclusive start_d end_d = l
  induction l generalizing acc with
  | nil => exact h
  | cons d rest ih =>
    rw [List.foldl_cons]
    exact ih _ (preseedStep_volInv acc d h)

/-! ## Row and pipeline lemmas -/

theorem rowOfDay_date (totals : List (Nat × Nat)) (tbd : List (Nat × List (String × Nat)))
    (fc : List (String × (String × String × String))) (d : Nat) :
    (rowOfDay totals tbd fc d).date = d := rfl

theorem rowOfDay_total_volume (totals : List (Nat × Nat))
    (tbd : List (Nat × List (String × Nat)))
    (fc : List (String × (String × String × String))) (d : Nat) :
    (rowOfDay totals tbd fc d).total_volume = alGetD totals d 0 := rfl

theorem rowOfDay_sports_volume (totals : List (Nat × Nat))
    (tbd : List (Nat × List (String × Nat)))
    (fc : List (String × (String × String × String))) (d : Nat) :
    (rowOfDay totals tbd fc d).sports_volume = (sportsAgg (alGetD tbd d []) fc).2 := rfl

theorem rowOfDay_sport_volumes (totals : List (Nat × Nat))
    (tbd : List (Nat × List (String × Nat)))
    (fc : List (String × (String × String × String))) (d : Nat) :
    (rowOfDay totals tbd fc d).sport_volumes = (sportsAgg (alGetD tbd d []) fc).1 := rfl

theorem rowOfDay_sports_pct (totals : List (Nat × Nat))
    (tbd : List (Nat × List (String × Nat)))
    (fc : List (String × (String × String × String))) (d : Nat) :
    (rowOfDay totals tbd fc d).sports_pct
      = round4 (if alGetD totals d 0 ≠ 0
          then ((sportsAgg (alGetD tbd d []) fc).2 : ℚ) / ((alGetD totals d 0 : ℕ) : ℚ) * 100
          else 0) := rfl

theorem roundHalfEven_zero : roundHalfEven 0 = 0 := by
  norm_num [roundHalfEven]

theorem round4_zero : round4 0 = 0 := by
  norm_num [round4, roundHalfEven_zero]

theorem bucketTrades_keys_nodup (dayOf : Int → Nat) (trades : List RawTrade) :
    (alKeys (bucketTrades dayOf trades).1).Nodup := by
  unfold bucketTrades
  have hgen : ∀ (l : List RawTrade) acc, (alKeys acc.1).Nodup →
      (alKeys (l.foldl (bucketStep dayOf) acc).1).Nodup := by
    intro l
    induction l with
    | nil => exact fun acc h => h
    | cons t ts ih =>
      intro acc h
      rw [List.foldl_cons]
      apply ih
      cases hts : t.ts with
      | none =>
        have h1 : bucketStep dayOf acc t = acc := by simp [bucketStep, hts]
        rw [h1]
        exact h
      | some τ =>
        have h1 : (bucketStep dayOf acc t).1 = alAdd acc.1 (dayOf τ) t.count := by
          by_cases htk : t.ticker = "" <;> simp [bucketStep, hts, htk]
        rw [h1]
        exact nodup_alKeys_alAdd _ _ h
  exact hgen trades ([], []) (by simp [alKeys])

theorem preseed_keys_nodup (start_d end_d : Nat)
    (acc : List (Nat × Nat) × List (Nat × List (String × Nat)))
    (h : (alKeys acc.1).Nodup) : (alKeys (preseed start_d end_d acc).1).Nodup := by
  unfold preseed
  generalize daterangeInclusive start_d end_d = l
  induction l generalizing acc with
  | nil => exact h
  | cons d rest ih =>
    rw [List.foldl_cons]
    exact ih _ (nodup_alKeys_alSetD _ _ h)

theorem foldl_preseed_mem_keys (l : List Nat) :
    ∀ (acc : List (Nat × Nat) × List (Nat × List (String × Nat))) (d : Nat),
      d ∈ alKeys acc.1 ∨ d ∈ l → d ∈ alKeys (l.foldl preseedStep acc).1 := by
  induction l with
  | nil =>
    intro acc d h
    rcases h with h | h
    · exact h
    · simp at h
  | cons d2 rest ih =>
    intro acc d h
    rw [List.foldl_cons]
    apply ih
    rcases h with h | h
    · exact Or.inl (mem_alKeys_alSetD_of_mem _ _ _ _ h)
    · rcases List.mem_cons.mp h with h | h
      · subst h
        exact Or.inl (mem_alKeys_alSetD_self _ _ _)
      · exact Or.inr h

theorem preseed_mem_keys (start_d end_d d : Nat)
    (acc : List (Nat × Nat) × List (Nat × List (String × Nat)))
    (h1 : start_d ≤ d) (h2 : d ≤ end_d) :
    d ∈ alKeys (preseed start_d end_d acc).1 := by
  unfold preseed
  apply foldl_preseed_mem_keys
  right
  simp only [daterangeInclusive, List.mem_range'_1]
  omega

theorem preseed_snd (start_d end_d : Nat)
    (acc : List (Nat × Nat) × List (Nat × List (String × Nat))) :
    (preseed start_d end_d acc).2
      = (daterangeInclusive start_d end_d).foldl (fun m d => alSetD m d []) acc.2 := by
  unfold preseed
  generalize daterangeInclusive start_d end_d = l
  induction l generalizing acc with
  | nil => rfl
  | cons d rest ih =>
    rw [List.foldl_cons, List.foldl_cons]
    exact ih _

theorem pipelineRows_dates (dayOf : Int → Nat) (trades : List RawTrade)
    (start_d end_d : Nat) (fc : List (String × (String × String × String))) :
    (pipelineRows dayOf trades start_d end_d fc).map DailyRow.date
      = List.insertionSort (· ≤ ·)
          (alKeys (preseed start_d end_d (bucketTrades dayOf trades)).1) := by
  unfold pipelineRows computeRows
  rw [List.map_map]
  have hcomp : (DailyRow.date ∘ rowOfDay (preseed start_d end_d (bucketTrades dayOf trades)).1
      (preseed start_d end_d (bucketTrades dayOf trades)).2 fc) = id := rfl
  rw [hcomp, List.map_id]

theorem pipelineRows_nil_eval :
    pipelineRows (fun _ => 0) [] 0 0 []
      = [⟨0, 0, 0, 0, SPORT_CATEGORIES.map (fun s => (s, 0))⟩] := by
  simp [pipelineRows, preseed, bucketTrades, daterangeInclusive, computeRows, preseedStep,
    alSetD, alGet, alGetD, alKeys, rowOfDay, sportsAgg, round4, roundHalfEven, SPORT_CATEGORIES]

/-- C4 (confirmed): on every output row, sports_volume ≤ total_volume and
the thirteen per-sport volumes sum exactly to sports_volume; each traded
quantity is added to at most one sport bucket, the one its
ticker/category/event-ticker classifies to. -/
theorem C4_volume_invariants (dayOf : Int → Nat) (trades : List RawTrade)
    (start_d end_d : Nat) (fc : List (String × (String × String × String))) :
    ∀ row ∈ pipelineRows dayOf trades start_d end_d fc,
      row.sports_volume ≤ row.total_volume ∧
      alSum row.sport_volumes = row.sports_volume := by
  intro row hrow
  simp only [pipelineRows, computeRows, List.mem_map] at hrow
  obtain ⟨d, hd, rfl⟩ := hrow
  have hinv := preseed_volInv start_d end_d _ (bucketTrades_volInv dayOf trades) d
  obtain ⟨hsum, hle⟩ := sportsAgg_sum
    (alGetD (preseed start_d end_d (bucketTrades dayOf trades)).2 d []) fc
  rw [rowOfDay_sports_volume, rowOfDay_total_volume, rowOfDay_sport_volumes]
  exact ⟨le_trans hle hinv, hsum⟩

/-- Witness for C4_volume_invariants at the zero-trade single-day run. -/
theorem C4_volume_invariants_witness :
    (⟨0, 0, 0, 0, SPORT_CATEGORIES.map (fun s => (s, 0))⟩ : DailyRow).sports_volume
        ≤ (⟨0, 0, 0, 0, SPORT_CATEGORIES.map (fun s => (s, 0))⟩ : DailyRow).total_volume ∧
    alSum (⟨0, 0, 0, 0, SPORT_CATEGORIES.map (fun s => (s, 0))⟩ : DailyRow).sport_volumes
        = (⟨0, 0, 0, 0, SPORT_CATEGORIES.map (fun s => (s, 0))⟩ : DailyRow).sports_volume :=
  C4_volume_invariants (fun _ => 0) [] 0 0 [] _
    (by rw [pipelineRows_nil_eval]; exact List.mem_singleton_self _)

/-- C5 (confirmed): every calendar day of the window [start_d, end_d]
appears exactly once among the output rows (days with no trades included,
thanks to pre-seeding), and the rows are sorted by strictly ascending
date. -/
theorem C5_window_days (dayOf : Int → Nat) (trades : List RawTrade)
    (start_d end_d : Nat) (fc : List (String × (String × String × String))) :
    (∀ d, start_d ≤ d → d ≤ end_d →
      ((pipelineRows dayOf trades start_d end_d fc).map DailyRow.date).count d = 1) ∧
    ((pipelineRows dayOf trades start_d end_d fc).map DailyRow.date).Sorted (· < ·) := by
  have hnodup : (alKeys (preseed start_d end_d (bucketTrades dayOf trades)).1).Nodup :=
    preseed_keys_nodup start_d end_d _ (bucketTrades_keys_nodup dayOf trades)
  have hperm := List.perm_insertionSort (· ≤ ·)
    (alKeys (preseed start_d end_d (bucketTrades dayOf trades)).1)
  rw [pipelineRows_dates]
  constructor
  · intro d h1 h2
    rw [hperm.count_eq]
    exact List.count_eq_one_of_mem hnodup (preseed_mem_keys start_d end_d d _ h1 h2)
  · have hsorted := List.sorted_insertionSort (· ≤ ·)
      (alKeys (preseed start_d end_d (bucketTrades dayOf trades)).1)
    have hnodup2 : (List.insertionSort (· ≤ ·)
        (alKeys (preseed start_d end_d (bucketTrades dayOf trades)).1)).Nodup :=
      hperm.nodup_iff.mpr hnodup
    exact (hsorted.and hnodup2).imp (fun h => lt_of_le_of_ne h.1 h.2)

/-- Witness for C5_window_days on the window [2, 3] with no trades. -/
theorem C5_window_days_witness :
    ((pipelineRows (fun _ => 0) [] 2 3 []).map DailyRow.date).count 2 = 1 :=
  (C5_window_days (fun _ => 0) [] 2 3 []).1 2 (by norm_num) (by norm_num)

/-- C6 (confirmed): on every output row, sports_pct equals
round(sports_volume / total_volume × 100, 4) when total_volume > 0 and 0
when total_volume = 0. -/
theorem C6_sports_pct (dayOf : Int → Nat) (trades : List RawTrade)
    (start_d end_d : Nat) (fc : List (String × (String × String × String))) :
    ∀ row ∈ pipelineRows dayOf trades start_d end_d fc,
      row.sports_pct = if row.total_volume = 0 then 0
        else round4 ((row.sports_volume : ℚ) / (row.total_volume : ℚ) * 100) := by
  intro row hrow
  simp only [pipelineRows, computeRows, List.mem_map] at hrow
  obtain ⟨d, hd, rfl⟩ := hrow
  rw [rowOfDay_sports_pct, rowOfDay_total_volume, rowOfDay_sports_volume]
  by_cases h : alGetD (preseed start_d end_d (bucketTrades dayOf trades)).1 d 0 = 0
  · simp [h, round4_zero]
  · simp [h]

/-- Witness for C6_sports_pct at the zero-trade single-day run. -/
theorem C6_sports_pct_witness :
    (⟨0, 0, 0, 0, SPORT_CATEGORIES.map (fun s => (s, 0))⟩ : DailyRow).sports_pct
      = if (⟨0, 0, 0, 0, SPORT_CATEGORIES.map (fun s => (s, 0))⟩ : DailyRow).total_volume = 0
        then 0
        else round4
          (((⟨0, 0, 0, 0, SPORT_CATEGORIES.map (fun s => (s, 0))⟩ : DailyRow).sports_volume : ℚ)
            / ((⟨0, 0, 0, 0,
                SPORT_CATEGORIES.map (fun s => (s, 0))⟩ : DailyRow).total_volume : ℚ) * 100) :=
  C6_sports_pct (fun _ => 0) [] 0 0 [] _
    (by rw [pipelineRows_nil_eval]; exact List.mem_singleton_self _)

/-- C7 counterexample: a per-item metadata failure leaves the ticker out
of the mapping, but classification does NOT degrade to "no sport": the
classifier still sees the ticker text itself, so a ticker such as
"KXNFLGAME-24" with no metadata still classifies as "nfl". -/
theorem C7_counterexample :
    lookupMarkets (fun _ => LookupResult.httpError 500) (fun _ => LookupResult.httpError 500)
        ["KXNFLGAME-24"] = [] ∧
    sportOf [] "KXNFLGAME-24" = "nfl" ∧ ("nfl" : String) ≠ "" := by
  refine ⟨rfl, ?_, by decide⟩
  decide

/-- C7 (amended): a non-transient HTTP error on a per-item metadata
lookup is caught: the identifier is simply absent from the output
mapping and every other item is still looked up exactly as before; for
a ticker absent from final_category the classifier receives empty
category and event-ticker fields, so classification falls back to the
ticker text alone (and is "no sport" only when the ticker text matches
no rule). -/
theorem C7_per_item_error_isolation (fetch1 fetch2 : String → LookupResult)
    (pre post : List String) (tk : String) (c : Nat)
    (hfail : fetch1 tk = LookupResult.httpError c)
    (fc : List (String × (String × String × String))) (habs : tk ∉ alKeys fc) :
    lookupMarkets fetch1 fetch2 (pre ++ tk :: post) = lookupMarkets fetch1 fetch2 (pre ++ post) ∧
    alGetD fc tk ("", "none", "") = ("", "none", "") ∧
    sportOf fc tk = classify_sport tk "" "" := by
  have hget : alGetD fc tk ("", "none", "") = ("", "none", "") := by
    unfold alGetD
    rw [alGet_eq_none_of_not_mem fc tk habs]
    rfl
  refine ⟨?_, hget, ?_⟩
  · unfold lookupMarkets
    rw [List.foldl_append, List.foldl_append, List.foldl_cons]
    have hskip : lookupMarketsStep fetch1 fetch2
        (List.foldl (lookupMarketsStep fetch1 fetch2) [] pre) tk
        = List.foldl (lookupMarketsStep fetch1 fetch2) [] pre := by
      simp [lookupMarketsStep, hfail]
    rw [hskip]
  · unfold sportOf
    rw [hget]

/-- Witness for C7_per_item_error_isolation: one failing ticker between
two others, against an empty final_category. -/
theorem C7_per_item_witness :
    lookupMarkets (fun _ => LookupResult.httpError 404) (fun _ => LookupResult.exn)
        (["A"] ++ "B" :: ["C"])
      = lookupMarkets (fun _ => LookupResult.httpError 404) (fun _ => LookupResult.exn)
        (["A"] ++ ["C"]) :=
  (C7_per_item_error_isolation (fun _ => LookupResult.httpError 404)
    (fun _ => LookupResult.exn) ["A"] ["C"] "B" 404 rfl [] (by simp [alKeys])).1

/-- C10 (confirmed): a fetched trade whose timestamp parses but whose
ticker is empty adds its quantity to that day's total (totals_by_day)
while leaving ticker_by_day unchanged, hence every output row's
sports_volume and per-sport volumes are unchanged — the quantity counts
toward total_volume only. -/
theorem C10_tickerless_trades (dayOf : Int → Nat) (trades : List RawTrade)
    (t : RawTrade) (τ : Int) (hts : t.ts = some τ) (htk : t.ticker = "") :
    (bucketTrades dayOf (trades ++ [t])).1
        = alAdd (bucketTrades dayOf trades).1 (dayOf τ) t.count ∧
    alGetD (bucketTrades dayOf (trades ++ [t])).1 (dayOf τ) 0
        = alGetD (bucketTrades dayOf trades).1 (dayOf τ) 0 + t.count ∧
    (bucketTrades dayOf (trades ++ [t])).2 = (bucketTrades dayOf trades).2 ∧
    ∀ start_d end_d fc d,
      (rowOfDay (preseed start_d end_d (bucketTrades dayOf (trades ++ [t]))).1
          (preseed start_d end_d (bucketTrades dayOf (trades ++ [t]))).2 fc d).sports_volume
        = (rowOfDay (preseed start_d end_d (bucketTrades dayOf trades)).1
            (preseed start_d end_d (bucketTrades dayOf trades)).2 fc d).sports_volume ∧
      (rowOfDay (preseed start_d end_d (bucketTrades dayOf (trades ++ [t]))).1
          (preseed start_d end_d (bucketTrades dayOf (trades ++ [t]))).2 fc d).sport_volumes
        = (rowOfDay (preseed start_d end_d (bucketTrades dayOf trades)).1
            (preseed start_d end_d (bucketTrades dayOf trades)).2 fc d).sport_volumes := by
  have hb : bucketTrades dayOf (trades ++ [t])
      = (alAdd (bucketTrades dayOf trades).1 (dayOf τ) t.count,
         (bucketTrades dayOf trades).2) := by
    unfold bucketTrades
    rw [List.foldl_append, List.foldl_cons, List.foldl_nil]
    simp [bucketStep, hts, htk]
  have h2 : ∀ start_d end_d,
      (preseed start_d end_d (bucketTrades dayOf (trades ++ [t]))).2
        = (preseed start_d end_d (bucketTrades dayOf trades)).2 := by
    intro s e
    rw [preseed_snd, preseed_snd, hb]
  refine ⟨by rw [hb], ?_, by rw [hb], ?_⟩
  · rw [hb]
    exact alGetD_alAdd_self _ _ _
  · intro s e fc d
    constructor
    · rw [rowOfDay_sports_volume, rowOfDay_sports_volume, h2 s e]
    · rw [rowOfDay_sport_volumes, rowOfDay_sport_volumes, h2 s e]

/-- Witness for C10_tickerless_trades: one tickerless trade of quantity
3 appended to the empty trade list. -/
theorem C10_tickerless_witness :
    (bucketTrades (fun _ => 0) ([] ++ [⟨some 5, "", 3⟩])).1
      = alAdd (bucketTrades (fun _ => 0) []).1 0 3 :=
  (C10_tickerless_trades (fun _ => 0) [] ⟨some 5, "", 3⟩ 5 rfl rfl).1

end KalshiPipeline

